import Mathlib

/-!
Verification of the core discrete-event simulation engine of the
dcsxx-des library.  The development shallowly embeds
`dcs/des/engine.hpp` (the `engine<RealT>` class) and
`dcs/des/replications/constant_num_replications_detector.hpp`.
`RealT` is modelled by the rationals.  The headers defining `event`,
`event_list`, `event_source`, the floating tolerance and the integer
infinity constant are not among the given sources; those parts are
modelled from the specification, as flagged in the doc comments below.
-/

/-- Identity of the built-in Begin-of-Simulation event source (`ptr_bos_evt_src_`). -/
def bosId : Nat := 0

/-- Identity of the built-in End-of-Simulation event source (`ptr_eos_evt_src_`). -/
def eosId : Nat := 1

/-- Identity of the built-in Before-Event-Firing event source (`ptr_bef_evt_src_`). -/
def befId : Nat := 2

/-- Identity of the built-in After-Event-Firing event source (`ptr_aef_evt_src_`). -/
def aefId : Nat := 3

/-- Identity of the built-in System-Initialization event source (`ptr_si_evt_src_`). -/
def siId : Nat := 4

/-- Identity of the built-in System-Finalization event source (`ptr_sf_evt_src_`). -/
def sfId : Nat := 5

/-- Modelled from the spec: an event record (`dcs/des/event.hpp` is not among
the sources).  `id` is the identity of the shared handle returned by
`schedule_event` (used by erase-by-identity), `src_id` the identity of the
originating event source, `sched_time` and `fire_time` the scheduling and
firing clocks, and `seq` the monotone sequence number the engine assigns at
push time for FIFO tie-breaking among same-time events. -/
structure Event where
  id : Nat
  src_id : Nat
  sched_time : Rat
  fire_time : Rat
  seq : Nat
deriving DecidableEq

/-- Strict priority order of the future-event list: primary `fire_time`
ascending, secondary sequence number ascending (modelled from the spec,
section on the EventList). -/
def keyLtb (a b : Event) : Bool :=
  decide (a.fire_time < b.fire_time) ||
    (decide (a.fire_time = b.fire_time) && decide (a.seq < b.seq))

/-- Reflexive priority order of the future-event list. -/
def keyLe (a b : Event) : Prop :=
  a.fire_time < b.fire_time ∨ (a.fire_time = b.fire_time ∧ a.seq ≤ b.seq)

instance keyLe.dec : DecidableRel keyLe := fun a b => by
  unfold keyLe; infer_instance

/-- Modelled from the spec: the push of the future-event list
(`dcs/des/event_list.hpp` is not among the sources).  The FEL is kept as a
list sorted by `(fire_time ASC, sequence_number ASC)`; push is ordered
insertion, placing an event after every queued event whose key is not
strictly greater. -/
def felInsert (e : Event) : List Event → List Event
  | [] => [e]
  | x :: xs => if keyLtb e x then e :: x :: xs else x :: felInsert e xs

/-- Modelled from the spec: erase-by-identity of the future-event list;
removes the (unique) queued element carrying the given handle identity. -/
def felErase (i : Nat) : List Event → List Event
  | [] => []
  | x :: xs => if x.id == i then xs else x :: felErase i xs

/-- Snapshot of an analyzable statistic as read by the engine: the boolean
interface `enabled` / `steady_state_entered` / `target_precision_reached`
plus the `steady_state_enter_time` field the engine writes back
(`dcs/des/base_analyzable_statistic.hpp` is not among the sources; the
boolean interface is modelled from the spec). -/
structure Stat where
  enabled : Bool
  steady_state_entered : Bool
  target_precision_reached : Bool
  steady_state_enter_time : Rat
deriving DecidableEq

/-- State of `dcs::des::engine`: the future-event list `evt_list_`, the
clock `sim_time_`, `last_evt_time_`, the `end_of_sim_` flag, the two event
counters, the registry `mon_stats_` of monitored statistics with their
steady-state latch bits, and the next sequence number to assign at push
time (the counter is modelled from the spec, since sequence numbers live
in the missing `event.hpp`). -/
structure Engine where
  evt_list : List Event
  sim_time : Rat
  last_evt_time : Rat
  end_of_sim : Bool
  num_events : Nat
  num_usr_events : Nat
  mon_stats : List (Stat × Bool)
  next_seq : Nat
deriving DecidableEq

/-- Environment read by a single engine operation: the enabled flag of each
event source (`event_source::enabled`) and whether the Before/After-Event-
Firing sources have no sinks (`event_source::empty`).  Sources are mutable
objects external to the engine state, so each operation reads them through
such an environment. -/
structure Env where
  enabled_of : Nat → Bool
  bef_empty : Bool
  aef_empty : Bool

/-- Engine state produced by the default constructor `engine()`:
zero clock, `end_of_sim_(true)`, zero counters, empty FEL and registry. -/
def init_engine : Engine :=
  { evt_list := [], sim_time := 0, last_evt_time := 0, end_of_sim := true,
    num_events := 0, num_usr_events := 0, mon_stats := [], next_seq := 0 }

/-- Translation of `engine::is_internal_event` restricted to source
identity: the source is one of the Begin-of-Simulation, End-of-Simulation,
Before-Event-Firing or After-Event-Firing sources.  (The C++ code compares
against exactly these four sources; the System-Initialization and
System-Finalization sources are not tested.) -/
def is_internal_src (src : Nat) : Bool :=
  src == bosId || src == eosId || src == befId || src == aefId

/-- Translation of `engine::is_internal_event` on an event. -/
def is_internal_event (e : Event) : Bool :=
  is_internal_src e.src_id

/-- Event constructed and pushed by `engine::schedule_event` when the
source is enabled: `scheduled_time = sim_time_`, `fire_time` clamped to
`sim_time_` when the requested time lies in the past; the fresh handle
identity and sequence number are drawn from the engine's push counter. -/
def sched_evt (src : Nat) (time : Rat) (s : Engine) : Event :=
  { id := s.next_seq, src_id := src, sched_time := s.sim_time,
    fire_time := if time < s.sim_time then s.sim_time else time,
    seq := s.next_seq }

/-- Translation of `engine::schedule_event`: a disabled source yields a
null handle and no FEL mutation; otherwise the event is built with
`scheduled_time = sim_time_` and (possibly clamped) fire time, pushed, and
returned. -/
def schedule_event (src_enabled : Bool) (src : Nat) (time : Rat) (s : Engine) :
    Option Event × Engine :=
  if !src_enabled then (none, s)
  else
    let e := sched_evt src time s
    (some e, { s with evt_list := felInsert e s.evt_list,
                      next_seq := s.next_seq + 1 })

/-- Common tail of `engine::reschedule_event` after the past-time checks:
skip when the (possibly clamped) new time is essentially equal to the
current fire time, otherwise erase the event from the FEL, update its fire
time, and push it again with a freshly assigned sequence number. -/
def resched_core (essEq : Rat → Rat → Bool) (evt_id : Nat) (t : Rat)
    (evt : Event) (s : Engine) : Engine :=
  if essEq t evt.fire_time then s
  else
    { s with
      evt_list := felInsert { evt with fire_time := t, seq := s.next_seq }
                    (felErase evt_id s.evt_list),
      next_seq := s.next_seq + 1 }

/-- Translation of `engine::reschedule_event`.  `essEq` stands for
`dcs::math::float_traits::essentially_equal` (its header is not among the
sources; modelled from the spec as an arbitrary real-number tolerance
test).  A disabled source is a no-op; a new time in the past is clamped to
the clock when the event still lies in the future and dropped otherwise;
the handle is located in the FEL by identity. -/
def reschedule_event (essEq : Rat → Rat → Bool) (src_enabled : Bool)
    (evt_id : Nat) (time : Rat) (s : Engine) : Engine :=
  if !src_enabled then s
  else
    match s.evt_list.find? (fun e => e.id == evt_id) with
    | none => s
    | some evt =>
      if time < s.sim_time then
        if s.sim_time < evt.fire_time then
          resched_core essEq evt_id s.sim_time evt s
        else s
      else resched_core essEq evt_id time evt s

/-- Translation of `engine::fire_next_event`: pop the earliest event; if
its source is disabled, discard it; otherwise bump `num_events_` (and
`num_usr_events_` for non-internal events), advance the clock to the
event's fire time, fire the Before/After-Event-Firing wrappers when those
sources have sinks (each bumping `num_events_`), record
`last_evt_time_`, and raise `end_of_sim_` when the event came from the
End-of-Simulation source. -/
def fire_next_event (env : Env) (s : Engine) : Engine :=
  match s.evt_list with
  | [] => s
  | e :: rest =>
    if !(env.enabled_of e.src_id) then { s with evt_list := rest }
    else
      let n1 := s.num_events + 1
      let nu := if !(is_internal_event e) then s.num_usr_events + 1
                else s.num_usr_events
      let n2 := if !env.bef_empty then n1 + 1 else n1
      let n3 := if !env.aef_empty then n2 + 1 else n2
      { s with evt_list := rest, num_events := n3, num_usr_events := nu,
               sim_time := e.fire_time, last_evt_time := e.fire_time,
               end_of_sim := if e.src_id == eosId then true else s.end_of_sim }

/-- Translation of `engine::fire_immediate_event`: build an event on the
fly with `scheduled_time = fire_time = sim_time_`, never touching the FEL;
a disabled source is a no-op; otherwise the counters, wrappers,
`last_evt_time_` and the End-of-Simulation check behave as in
`fire_next_event`. -/
def fire_immediate_event (env : Env) (src : Nat) (s : Engine) : Engine :=
  let e : Event := { id := 0, src_id := src, sched_time := s.sim_time,
                     fire_time := s.sim_time, seq := 0 }
  if !(env.enabled_of src) then s
  else
    let n1 := s.num_events + 1
    let nu := if !(is_internal_event e) then s.num_usr_events + 1
              else s.num_usr_events
    let n2 := if !env.bef_empty then n1 + 1 else n1
    let n3 := if !env.aef_empty then n2 + 1 else n2
    { s with num_events := n3, num_usr_events := nu,
             last_evt_time := s.sim_time,
             end_of_sim := if src == eosId then true else s.end_of_sim }

/-- Translation of `engine::reset`: zero the clock and
`last_evt_time_`, zero `num_events_`, lower `end_of_sim_`, and clear the
FEL.  (`num_usr_events_` is not touched by the C++ code.) -/
def reset (s : Engine) : Engine :=
  { s with sim_time := 0, last_evt_time := 0, num_events := 0,
           end_of_sim := false, evt_list := [] }

/-- Translation of `engine::reset_statistics`: invoke `reset` on every
registered statistic; the latch bits are untouched.  The statistic's own
`reset` is external code, passed in as `stat_reset`. -/
def reset_statistics (stat_reset : Stat → Stat) (s : Engine) : Engine :=
  { s with mon_stats := s.mon_stats.map (fun p => (stat_reset p.1, p.2)) }

/-- Translation of `engine::prepare_simulation`: `reset()` the core state,
reset the statistics, then immediately fire the Begin-of-Simulation
event. -/
def prepare_simulation (stat_reset : Stat → Stat) (env : Env) (s : Engine) :
    Engine :=
  fire_immediate_event env bosId (reset_statistics stat_reset (reset s))

/-- Translation of `engine::finalize_simulation`: raise `end_of_sim_` if
not already raised, clear the FEL, then immediately fire the
End-of-Simulation event. -/
def finalize_simulation (env : Env) (s : Engine) : Engine :=
  let s1 := if !s.end_of_sim then { s with end_of_sim := true } else s
  fire_immediate_event env eosId { s1 with evt_list := [] }

/-- Translation of `engine::run`: lower `end_of_sim_`, execute the
abstract `do_run` strategy, then raise `end_of_sim_`. -/
def run (do_run : Engine → Engine) (s : Engine) : Engine :=
  { do_run { s with end_of_sim := false } with end_of_sim := true }

/-- Translation of `engine::monitor_statistics`: return immediately on an
empty registry; otherwise raise the steady-state latch (recording
`steady_state_enter_time := sim_time_`) of every statistic that has just
entered steady state, and raise `end_of_sim_` when no registered statistic
is both enabled and short of its target precision. -/
def monitor_statistics (s : Engine) : Engine :=
  if s.mon_stats.isEmpty then s
  else
    { s with
      mon_stats := s.mon_stats.map (fun p =>
        if !p.2 && p.1.steady_state_entered then
          ({ p.1 with steady_state_enter_time := s.sim_time }, true)
        else p),
      end_of_sim :=
        if s.mon_stats.all
            (fun p => !(p.1.enabled && !p.1.target_precision_reached)) then
          true
        else s.end_of_sim }

/-- Translation of `engine::advance`: when the simulation is not over and
the FEL is non-empty, fire the next event and then monitor the
statistics. -/
def advance (env : Env) (s : Engine) : Engine :=
  if !s.end_of_sim && !s.evt_list.isEmpty then
    monitor_statistics (fire_next_event env s)
  else s

/-- Translation of `engine::stop_at_time` via `do_stop_at_time`: a past
stop time violates the precondition and raises an error leaving the state
unchanged; otherwise an End-of-Simulation event is scheduled at the given
time. -/
def stop_at_time (eos_enabled : Bool) (time : Rat) (s : Engine) : Engine :=
  if time < s.sim_time then s
  else (schedule_event eos_enabled eosId time s).2

/-- One public engine operation together with the environment it reads,
for reasoning over operation sequences. -/
inductive EngineOp where
  | schedule (src_enabled : Bool) (src : Nat) (time : Rat)
  | resched (essEq : Rat → Rat → Bool) (src_enabled : Bool) (evt_id : Nat) (time : Rat)
  | adv (env : Env)
  | fire_next (env : Env)
  | stop_at (eos_enabled : Bool) (time : Rat)

/-- Effect of one public engine operation on the engine state. -/
def step_op (op : EngineOp) (s : Engine) : Engine :=
  match op with
  | .schedule en src t => (schedule_event en src t s).2
  | .resched eq en i t => reschedule_event eq en i t s
  | .adv env => advance env s
  | .fire_next env => fire_next_event env s
  | .stop_at en t => stop_at_time en t s

/-- Effect of a sequence of public engine operations. -/
def run_ops : List EngineOp → Engine → Engine
  | [], s => s
  | op :: ops, s => run_ops ops (step_op op s)

/-- Check, before a pop, that the event about to be popped (the FEL head)
does not fire before the current clock. -/
def pop_ok (s : Engine) : Bool :=
  match s.evt_list with
  | [] => true
  | e :: _ => decide (s.sim_time ≤ e.fire_time)

/-- Check that along a sequence of operations every event popped by
`fire_next_event` (directly or through `advance`) fires no earlier than
the clock at the moment it is popped. -/
def ops_pops_ok : List EngineOp → Engine → Bool
  | [], _ => true
  | op :: ops, s =>
    (match op with
     | .fire_next _ => pop_ok s
     | .adv _ => if s.end_of_sim then true else pop_ok s
     | _ => true) && ops_pops_ok ops (step_op op s)

/-- Engine invariant maintained within a run: the FEL is sorted by
`(fire_time, sequence number)` and every queued event fires no earlier
than the clock. -/
def EngInv (s : Engine) : Prop :=
  List.Pairwise keyLe s.evt_list ∧ ∀ e ∈ s.evt_list, s.sim_time ≤ e.fire_time

instance EngInv.dec (s : Engine) : Decidable (EngInv s) := by
  unfold EngInv; infer_instance

/-- Modelled from the spec: `dcs::math::constants::infinity` for `size_t`
(the header `dcs/math/constants.hpp` is not among the sources), taken as
the largest value of a 64-bit `size_t`. -/
def size_t_infinity : Nat := 2 ^ 64 - 1

/-- Translation of
`dcs::des::replications::constant_num_replications_detector`: the whole
state is the prescribed number of replications `r_`. -/
structure ConstantNumReplicationsDetector where
  r : Nat
deriving DecidableEq

/-- Translation of
`constant_num_replications_detector::default_num_replications`. -/
def default_num_replications : Nat := size_t_infinity

/-- Translation of `constant_num_replications_detector::detect`: ignore
the arguments, mutate nothing, report success. -/
def detect (d : ConstantNumReplicationsDetector) (r_cur : Nat)
    (estimate stddev : Rat) : Bool × ConstantNumReplicationsDetector :=
  (true, d)

/-- Translation of `constant_num_replications_detector::detected`. -/
def detected (d : ConstantNumReplicationsDetector) : Bool := true

/-- Translation of `constant_num_replications_detector::aborted`. -/
def aborted (d : ConstantNumReplicationsDetector) : Bool := false

/-- Translation of `constant_num_replications_detector::estimated_number`. -/
def estimated_number (d : ConstantNumReplicationsDetector) : Nat := d.r

/-- Translation of `constant_num_replications_detector::reset`. -/
def reset_detector (d : ConstantNumReplicationsDetector) :
    ConstantNumReplicationsDetector := d

/-- Example environment: every source enabled, no sinks on the
Before/After-Event-Firing sources. -/
def env_all : Env :=
  { enabled_of := fun _ => true, bef_empty := true, aef_empty := true }

/-- Example user event (source identity 6) queued to fire at time 5. -/
def evt5 : Event :=
  { id := 0, src_id := 6, sched_time := 0, fire_time := 5, seq := 0 }

/-- Example engine state inside a run: fresh state with the
`end_of_sim_` flag lowered. -/
def eng_run : Engine := { init_engine with end_of_sim := false }

/-- Example in-run engine state holding one queued user event. -/
def eng_one : Engine :=
  { eng_run with evt_list := [evt5], next_seq := 1 }

/-- Example statistic that is disabled and short of its target
precision. -/
def stat_off : Stat :=
  { enabled := false, steady_state_entered := false,
    target_precision_reached := false, steady_state_enter_time := 0 }

/-- Example in-run engine state monitoring one disabled statistic. -/
def eng_stat1 : Engine :=
  { eng_run with mon_stats := [(stat_off, false)] }

/-- Example sequence of public engine operations: schedule a user event at
time 5, fire it, take one `advance` cycle, then ask to stop at time 9. -/
def ops_w : List EngineOp :=
  [EngineOp.schedule true 6 5, EngineOp.fire_next env_all,
   EngineOp.adv env_all, EngineOp.stop_at true 9]

/-- C10: for every `constant_num_replications_detector` and every input,
`detect` returns true and leaves the state unchanged, `detected` is
always true, `aborted` always false, `reset` changes nothing, and
`estimated_number` returns the replication count given at construction,
whose default is the infinity constant for `size_t`. -/
theorem c10_detector (d : ConstantNumReplicationsDetector) (r_cur : Nat)
    (estimate stddev : Rat) (n : Nat) :
    detect d r_cur estimate stddev = (true, d)
    ∧ detected d = true
    ∧ aborted d = false
    ∧ reset_detector d = d
    ∧ estimated_number (ConstantNumReplicationsDetector.mk n) = n
    ∧ default_num_replications = size_t_infinity
    ∧ estimated_number
        (ConstantNumReplicationsDetector.mk default_num_replications)
        = size_t_infinity :=
  ⟨rfl, rfl, rfl, rfl, rfl, rfl, rfl⟩

/-- Strict FEL priority order as a proposition. -/
lemma keyLtb_iff {a b : Event} :
    keyLtb a b = true ↔
      (a.fire_time < b.fire_time ∨
        (a.fire_time = b.fire_time ∧ a.seq < b.seq)) := by
  simp [keyLtb]

/-- A strictly smaller FEL key is reflexively smaller. -/
lemma keyLe_of_keyLtb {a b : Event} (h : keyLtb a b = true) : keyLe a b := by
  rcases keyLtb_iff.1 h with h1 | ⟨h1, h2⟩
  · exact Or.inl h1
  · exact Or.inr ⟨h1, Nat.le_of_lt h2⟩

/-- A failed strict FEL comparison yields the reflexive comparison the
other way round. -/
lemma keyLe_of_not_keyLtb {a b : Event} (h : keyLtb a b = false) :
    keyLe b a := by
  have h1 : ¬ (a.fire_time < b.fire_time ∨
      (a.fire_time = b.fire_time ∧ a.seq < b.seq)) := by
    intro hc
    rw [← keyLtb_iff] at hc
    rw [h] at hc
    exact Bool.false_ne_true hc
  push_neg at h1
  obtain ⟨hf, hs⟩ := h1
  rcases lt_or_eq_of_le hf with h2 | h2
  · exact Or.inl h2
  · exact Or.inr ⟨h2, hs h2.symm⟩

/-- The reflexive FEL priority order is transitive. -/
lemma keyLe_trans {a b c : Event} (h1 : keyLe a b) (h2 : keyLe b c) :
    keyLe a c := by
  rcases h1 with h1 | ⟨h1, h1s⟩ <;> rcases h2 with h2 | ⟨h2, h2s⟩
  · exact Or.inl (lt_trans h1 h2)
  · exact Or.inl (h2 ▸ h1)
  · exact Or.inl (h1 ▸ h2)
  · exact Or.inr ⟨h1.trans h2, Nat.le_trans h1s h2s⟩

/-- The strict FEL priority order is transitive. -/
lemma keyLtb_trans {a b c : Event} (h1 : keyLtb a b = true)
    (h2 : keyLtb b c = true) : keyLtb a c = true := by
  rcases keyLtb_iff.1 h1 with g1 | ⟨g1, g1s⟩ <;>
    rcases keyLtb_iff.1 h2 with g2 | ⟨g2, g2s⟩ <;> rw [keyLtb_iff]
  · exact Or.inl (lt_trans g1 g2)
  · exact Or.inl (g2 ▸ g1)
  · exact Or.inl (g1 ▸ g2)
  · exact Or.inr ⟨g1.trans g2, Nat.lt_trans g1s g2s⟩

/-- The strict FEL priority order is asymmetric. -/
lemma keyLtb_asymm {a b : Event} (h : keyLtb a b = true) :
    keyLtb b a = false := by
  rcases hc : keyLtb b a with _ | _
  · rfl
  · exfalso
    rcases keyLtb_iff.1 h with g1 | ⟨g1, g1s⟩ <;>
      rcases keyLtb_iff.1 hc with g2 | ⟨g2, g2s⟩
    · exact absurd (lt_trans g1 g2) (lt_irrefl _)
    · exact absurd (g2 ▸ g1) (lt_irrefl _)
    · exact absurd (g1 ▸ g2) (lt_irrefl _)
    · exact absurd (Nat.lt_trans g1s g2s) (Nat.lt_irrefl _)

/-- An element passed over by an ordered insertion cannot come strictly
after any key above the inserted one. -/
lemma keyLtb_false_trans {e1 e2 x : Event} (h1 : keyLtb e1 x = false)
    (h2 : keyLtb e1 e2 = true) : keyLtb e2 x = false := by
  rcases hc : keyLtb e2 x with _ | _
  · rfl
  · exfalso
    have h3 : keyLtb e1 x = true := keyLtb_trans h2 hc
    rw [h1] at h3
    exact Bool.false_ne_true h3

/-- Membership in the FEL after a push. -/
lemma mem_felInsert (a e : Event) :
    ∀ l : List Event, a ∈ felInsert e l ↔ a = e ∨ a ∈ l
  | [] => by simp [felInsert]
  | x :: xs => by
    unfold felInsert
    by_cases hlt : keyLtb e x = true
    · rw [if_pos hlt]
      simp [List.mem_cons]
    · rw [if_neg hlt]
      simp [List.mem_cons, mem_felInsert a e xs]
      tauto

/-- Ordered insertion preserves sortedness of the FEL. -/
lemma pairwise_felInsert (e : Event) :
    ∀ l : List Event, List.Pairwise keyLe l →
      List.Pairwise keyLe (felInsert e l)
  | [], _ => by simp [felInsert]
  | x :: xs, h => by
    rw [List.pairwise_cons] at h
    obtain ⟨hx, hxs⟩ := h
    unfold felInsert
    by_cases hlt : keyLtb e x = true
    · rw [if_pos hlt]
      refine List.pairwise_cons.2 ⟨?_, List.pairwise_cons.2 ⟨hx, hxs⟩⟩
      intro a ha
      rcases List.mem_cons.1 ha with rfl | ha
      · exact keyLe_of_keyLtb hlt
      · exact keyLe_trans (keyLe_of_keyLtb hlt) (hx a ha)
    · rw [if_neg hlt]
      refine List.pairwise_cons.2 ⟨?_, pairwise_felInsert e xs hxs⟩
      intro a ha
      rcases (mem_felInsert a e xs).1 ha with rfl | ha
      · exact keyLe_of_not_keyLtb (Bool.not_eq_true _ ▸ hlt)
      · exact hx a ha

/-- Erasure by identity yields a sublist of the FEL. -/
lemma felErase_sublist (i : Nat) :
    ∀ l : List Event, List.Sublist (felErase i l) l
  | [] => List.Sublist.refl []
  | x :: xs => by
    by_cases hx : (x.id == i) = true
    · have hstep : felErase i (x :: xs) = xs := by
        unfold felErase; rw [if_pos hx]
      rw [hstep]
      exact List.sublist_cons_self x xs
    · have hstep : felErase i (x :: xs) = x :: felErase i xs := by
        show (if (x.id == i) = true then xs else x :: felErase i xs) =
          x :: felErase i xs
        rw [if_neg hx]
      rw [hstep]
      exact List.Sublist.cons₂ x (felErase_sublist i xs)

/-- Erasure by identity preserves membership in the original FEL. -/
lemma mem_of_mem_felErase {a : Event} {i : Nat} {l : List Event}
    (h : a ∈ felErase i l) : a ∈ l :=
  (felErase_sublist i l).subset h

/-- Erasure by identity preserves sortedness of the FEL. -/
lemma pairwise_felErase (i : Nat) {l : List Event}
    (h : List.Pairwise keyLe l) : List.Pairwise keyLe (felErase i l) :=
  h.sublist (felErase_sublist i l)

/-- Ordered insertion places the pushed event somewhere in the FEL. -/
lemma felInsert_split (e : Event) :
    ∀ l : List Event, ∃ l1 l2, felInsert e l = l1 ++ e :: l2
  | [] => ⟨[], [], rfl⟩
  | x :: xs => by
    unfold felInsert
    by_cases hlt : keyLtb e x = true
    · rw [if_pos hlt]
      exact ⟨[], x :: xs, rfl⟩
    · rw [if_neg hlt]
      obtain ⟨l1, l2, hl⟩ := felInsert_split e xs
      exact ⟨x :: l1, l2, by rw [hl]; rfl⟩

/-- Two successive ordered insertions with strictly increasing keys leave
the first pushed event strictly before the second. -/
lemma felInsert_pair_split (e1 e2 : Event) (h : keyLtb e1 e2 = true) :
    ∀ l : List Event,
      ∃ l1 l2 l3, felInsert e2 (felInsert e1 l) =
        l1 ++ e1 :: (l2 ++ e2 :: l3)
  | [] => by
    refine ⟨[], [], [], ?_⟩
    show felInsert e2 [e1] = e1 :: [e2]
    unfold felInsert
    rw [if_neg (by rw [keyLtb_asymm h]; exact Bool.false_ne_true)]
    rfl
  | x :: xs => by
    by_cases h1 : keyLtb e1 x = true
    · have hstep : felInsert e1 (x :: xs) = e1 :: x :: xs := by
        show (if keyLtb e1 x = true then e1 :: x :: xs
              else x :: felInsert e1 xs) = e1 :: x :: xs
        rw [if_pos h1]
      rw [hstep]
      have hstep2 : felInsert e2 (e1 :: x :: xs) =
          e1 :: felInsert e2 (x :: xs) := by
        show (if keyLtb e2 e1 = true then e2 :: e1 :: x :: xs
              else e1 :: felInsert e2 (x :: xs)) =
            e1 :: felInsert e2 (x :: xs)
        rw [if_neg (by rw [keyLtb_asymm h]; exact Bool.false_ne_true)]
      rw [hstep2]
      obtain ⟨l1, l2, hl⟩ := felInsert_split e2 (x :: xs)
      exact ⟨[], l1, l2, by rw [hl]; rfl⟩
    · have h1f : keyLtb e1 x = false := Bool.not_eq_true _ ▸ h1
      have hstep : felInsert e1 (x :: xs) = x :: felInsert e1 xs := by
        show (if keyLtb e1 x = true then e1 :: x :: xs
              else x :: felInsert e1 xs) = x :: felInsert e1 xs
        rw [if_neg h1]
      rw [hstep]
      have h2f : keyLtb e2 x = false := keyLtb_false_trans h1f h
      have hstep2 : felInsert e2 (x :: felInsert e1 xs) =
          x :: felInsert e2 (felInsert e1 xs) := by
        show (if keyLtb e2 x = true then e2 :: x :: felInsert e1 xs
              else x :: felInsert e2 (felInsert e1 xs)) =
            x :: felInsert e2 (felInsert e1 xs)
        rw [if_neg (by rw [h2f]; exact Bool.false_ne_true)]
      rw [hstep2]
      obtain ⟨l1, l2, l3, hl⟩ := felInsert_pair_split e1 e2 h xs
      exact ⟨x :: l1, l2, l3, by rw [hl]; rfl⟩

/-- C1 (amended): after `run` returns, `end_of_simulation()` is true for
every `do_run` strategy; `run` itself leaves the future-event list exactly
as the strategy left it, and the list is empty whenever the strategy ends
by calling `finalize_simulation` (which clears it before firing the
End-of-Simulation event). -/
theorem c1_run_end_of_sim (do_run : Engine → Engine) (s : Engine)
    (env : Env) :
    (run do_run s).end_of_sim = true
    ∧ (run do_run s).evt_list = (do_run { s with end_of_sim := false }).evt_list
    ∧ (run (fun t => finalize_simulation env (do_run t)) s).evt_list = [] := by
  refine ⟨rfl, rfl, ?_⟩
  show (finalize_simulation env (do_run { s with end_of_sim := false })).evt_list = []
  unfold finalize_simulation fire_immediate_event
  dsimp only
  split <;> rfl

/-- C1 counterexample: with the identity `do_run` strategy (allowed, since
`do_run` is an abstract extension point) and a single queued event, `run`
returns with a non-empty future-event list, refuting the claim that the
FEL is empty after `run` regardless of the strategy. -/
theorem c1_cex :
    ¬ ((run (fun t => t) eng_one).end_of_sim = true
       ∧ (run (fun t => t) eng_one).evt_list = []) := by
  decide

/-- C5: `schedule_event` on a disabled source returns a null handle and
leaves the whole engine state (in particular the FEL) unchanged; on an
enabled source it builds an event whose `scheduled_time` is the current
clock and whose `fire_time` is the requested time clamped to the clock
when it lies in the past, pushes exactly that event, and returns it. -/
theorem c5_schedule (src : Nat) (time : Rat) (s : Engine) :
    schedule_event false src time s = (none, s)
    ∧ (schedule_event true src time s).1 = some (sched_evt src time s)
    ∧ (schedule_event true src time s).2 =
        { s with evt_list := felInsert (sched_evt src time s) s.evt_list,
                 next_seq := s.next_seq + 1 }
    ∧ (sched_evt src time s).sched_time = s.sim_time
    ∧ (sched_evt src time s).fire_time =
        (if time < s.sim_time then s.sim_time else time) :=
  ⟨rfl, rfl, rfl, rfl, rfl⟩

/-- C3 counterexample: firing the SYSTEM-INITIALIZATION lifecycle event
through `fire_immediate_event` increments `num_usr_events_`, because
`engine::is_internal_event` tests only the Begin/End-of-Simulation and
Before/After-Event-Firing sources; this refutes the claim that none of
the six built-in lifecycle events ever increments the user-event
counter. -/
theorem c3_cex :
    ¬ ((fire_immediate_event env_all siId eng_run).num_usr_events
        = eng_run.num_usr_events) := by
  decide

/-- C3 (amended): firing one of the four events recognised by
`is_internal_event` (BEGIN_SIM, END_SIM, BEFORE_FIRE, AFTER_FIRE),
whether via `fire_next_event` or `fire_immediate_event` on an enabled
source, increments `num_events_` (once, plus once per non-empty wrapper
source) and leaves `num_usr_events_` unchanged; firing SYSTEM_INIT or
SYSTEM_FINAL, which the code does not classify as internal, increments
both counters. -/
theorem c3_internal_events (s : Engine) (env : Env) (src : Nat)
    (e : Event) (rest : List Event) :
    (is_internal_src src = true → env.enabled_of src = true →
       (fire_immediate_event env src s).num_events =
           s.num_events + 1 + (if env.bef_empty then 0 else 1)
             + (if env.aef_empty then 0 else 1)
       ∧ (fire_immediate_event env src s).num_usr_events = s.num_usr_events)
    ∧ ((src = siId ∨ src = sfId) → env.enabled_of src = true →
       (fire_immediate_event env src s).num_events =
           s.num_events + 1 + (if env.bef_empty then 0 else 1)
             + (if env.aef_empty then 0 else 1)
       ∧ (fire_immediate_event env src s).num_usr_events =
           s.num_usr_events + 1)
    ∧ (s.evt_list = e :: rest → is_internal_src e.src_id = true →
       env.enabled_of e.src_id = true →
       (fire_next_event env s).num_events =
           s.num_events + 1 + (if env.bef_empty then 0 else 1)
             + (if env.aef_empty then 0 else 1)
       ∧ (fire_next_event env s).num_usr_events = s.num_usr_events)
    ∧ (s.evt_list = e :: rest → (e.src_id = siId ∨ e.src_id = sfId) →
       env.enabled_of e.src_id = true →
       (fire_next_event env s).num_events =
           s.num_events + 1 + (if env.bef_empty then 0 else 1)
             + (if env.aef_empty then 0 else 1)
       ∧ (fire_next_event env s).num_usr_events = s.num_usr_events + 1) := by
  refine ⟨?_, ?_, ?_, ?_⟩
  · intro h1 h2
    cases hb : env.bef_empty <;> cases ha : env.aef_empty <;>
      simp [fire_immediate_event, is_internal_event, h1, h2, hb, ha]
  · intro h1 h2
    have h3 : is_internal_src src = false := by
      rcases h1 with rfl | rfl <;> rfl
    cases hb : env.bef_empty <;> cases ha : env.aef_empty <;>
      simp [fire_immediate_event, is_internal_event, h3, h2, hb, ha]
  · intro hl h1 h2
    cases hb : env.bef_empty <;> cases ha : env.aef_empty <;>
      simp [fire_next_event, hl, is_internal_event, h1, h2, hb, ha]
  · intro hl h1 h2
    have h3 : is_internal_src e.src_id = false := by
      rcases h1 with hs | hs <;> rw [hs] <;> rfl
    cases hb : env.bef_empty <;> cases ha : env.aef_empty <;>
      simp [fire_next_event, hl, is_internal_event, h3, h2, hb, ha]

/-- C3 witness: the amended statement instantiated on concrete states,
firing BEGIN_SIM and SYSTEM_INIT immediately and popping a queued
END_SIM and SYSTEM_INIT event. -/
theorem c3_witness :
    ((fire_immediate_event env_all bosId eng_run).num_events =
        eng_run.num_events + 1 + (if env_all.bef_empty then 0 else 1)
          + (if env_all.aef_empty then 0 else 1)
     ∧ (fire_immediate_event env_all bosId eng_run).num_usr_events =
        eng_run.num_usr_events)
    ∧ ((fire_immediate_event env_all siId eng_run).num_usr_events =
        eng_run.num_usr_events + 1)
    ∧ ((fire_next_event env_all
          { eng_run with
            evt_list := [{ id := 0, src_id := eosId, sched_time := 0,
                           fire_time := 0, seq := 0 }],
            next_seq := 1 }).num_usr_events = eng_run.num_usr_events)
    ∧ ((fire_next_event env_all
          { eng_run with
            evt_list := [{ id := 0, src_id := siId, sched_time := 0,
                           fire_time := 0, seq := 0 }],
            next_seq := 1 }).num_usr_events = eng_run.num_usr_events + 1) := by
  refine ⟨?_, ?_, ?_, ?_⟩
  · exact (c3_internal_events eng_run env_all bosId evt5 []).1
      (by decide) (by decide)
  · exact ((c3_internal_events eng_run env_all siId evt5 []).2.1
      (Or.inl rfl) (by decide)).2
  · exact ((c3_internal_events
      { eng_run with
        evt_list := [{ id := 0, src_id := eosId, sched_time := 0,
                       fire_time := 0, seq := 0 }],
        next_seq := 1 } env_all bosId
      { id := 0, src_id := eosId, sched_time := 0, fire_time := 0, seq := 0 }
      []).2.2.1 rfl (by decide) (by decide)).2
  · exact ((c3_internal_events
      { eng_run with
        evt_list := [{ id := 0, src_id := siId, sched_time := 0,
                       fire_time := 0, seq := 0 }],
        next_seq := 1 } env_all bosId
      { id := 0, src_id := siId, sched_time := 0, fire_time := 0, seq := 0 }
      []).2.2.2 rfl (Or.inl rfl) (by decide)).2

/-- C4 counterexample: starting from a state whose user-event counter is 5
(as left by a previous run), `prepare_simulation` neither zeroes
`num_usr_events_` (the C++ `reset` omits it) nor leaves `num_events_` at 0
(the BEGIN-OF-SIMULATION firing has already incremented it), refuting the
claim that every event counter is 0 after `prepare_simulation`. -/
theorem c4_cex :
    ¬ ((prepare_simulation (fun st => st) env_all
          { eng_run with num_usr_events := 5 }).num_usr_events = 0
       ∧ (prepare_simulation (fun st => st) env_all
          { eng_run with num_usr_events := 5 }).num_events = 0) := by
  decide

/-- C4 (amended): `prepare_simulation` zeroes the clock and
`last_evt_time_`, clears the FEL, lowers `end_of_sim_`, resets every
registered statistic, and then immediately fires BEGIN-OF-SIMULATION; it
leaves `num_usr_events_` at its previous value, and `num_events_` ends at
the number of events fired by the BEGIN_SIM dispatch (at least 1 when that
source is enabled) rather than 0. -/
theorem c4_prepare (stat_reset : Stat → Stat) (env : Env) (s : Engine) :
    (prepare_simulation stat_reset env s).sim_time = 0
    ∧ (prepare_simulation stat_reset env s).last_evt_time = 0
    ∧ (prepare_simulation stat_reset env s).evt_list = []
    ∧ (prepare_simulation stat_reset env s).end_of_sim = false
    ∧ (prepare_simulation stat_reset env s).num_usr_events = s.num_usr_events
    ∧ (prepare_simulation stat_reset env s).num_events =
        (if env.enabled_of bosId then
           1 + (if env.bef_empty then 0 else 1)
             + (if env.aef_empty then 0 else 1)
         else 0)
    ∧ (prepare_simulation stat_reset env s).mon_stats =
        s.mon_stats.map (fun p => (stat_reset p.1, p.2)) := by
  have hbe : (bosId == eosId) = false := by decide
  have hint : is_internal_src bosId = true := by decide
  cases henv : env.enabled_of bosId <;>
    cases hb : env.bef_empty <;> cases ha : env.aef_empty <;>
      simp [prepare_simulation, fire_immediate_event, reset_statistics,
            reset, is_internal_event, henv, hb, ha, hbe, hint]

/-- C6: behaviour of `reschedule_event` on an enabled source for an event
currently queued in the FEL: a new time in the past is clamped to the
clock and the reschedule proceeds when the event still lies strictly in
the future, and is dropped when the event already lies in the past; a
(possibly clamped) new time essentially equal to the current fire time is
a no-op; otherwise the event is erased, its fire time updated, and pushed
again with a freshly assigned sequence number, which exceeds the sequence
number of every event still queued. -/
theorem c6_reschedule (essEq : Rat → Rat → Bool) (evt_id : Nat) (time : Rat)
    (s : Engine) (evt : Event)
    (hfind : s.evt_list.find? (fun e => e.id == evt_id) = some evt) :
    (time < s.sim_time → evt.fire_time ≤ s.sim_time →
       reschedule_event essEq true evt_id time s = s)
    ∧ (time < s.sim_time → s.sim_time < evt.fire_time →
        essEq s.sim_time evt.fire_time = true →
        reschedule_event essEq true evt_id time s = s)
    ∧ (time < s.sim_time → s.sim_time < evt.fire_time →
        essEq s.sim_time evt.fire_time = false →
        reschedule_event essEq true evt_id time s =
          { s with
            evt_list :=
              (felInsert { evt with fire_time := s.sim_time, seq := s.next_seq }
                (felErase evt_id s.evt_list)),
            next_seq := s.next_seq + 1 })
    ∧ (s.sim_time ≤ time → essEq time evt.fire_time = true →
        reschedule_event essEq true evt_id time s = s)
    ∧ (s.sim_time ≤ time → essEq time evt.fire_time = false →
        reschedule_event essEq true evt_id time s =
          { s with
            evt_list :=
              (felInsert { evt with fire_time := time, seq := s.next_seq }
                (felErase evt_id s.evt_list)),
            next_seq := s.next_seq + 1 })
    ∧ ((∀ e ∈ s.evt_list, e.seq < s.next_seq) →
        ∀ e ∈ felErase evt_id s.evt_list, e.seq < s.next_seq) := by
  refine ⟨?_, ?_, ?_, ?_, ?_, ?_⟩
  · intro h1 h2
    simp [reschedule_event, hfind, h1, not_lt.2 h2]
  · intro h1 h2 h3
    simp [reschedule_event, resched_core, hfind, h1, h2, h3]
  · intro h1 h2 h3
    simp [reschedule_event, resched_core, hfind, h1, h2, h3]
  · intro h1 h2
    simp [reschedule_event, resched_core, hfind, not_lt.2 h1, h2]
  · intro h1 h2
    simp [reschedule_event, resched_core, hfind, not_lt.2 h1, h2]
  · intro h e he
    exact h e (mem_of_mem_felErase he)

/-- C6 witness: rescheduling the queued event of `eng_one` to its current
fire time under an exact-equality tolerance is a no-op. -/
theorem c6_witness :
    reschedule_event (fun a b => a == b) true 0 5 eng_one = eng_one := by
  exact (c6_reschedule (fun a b => a == b) 0 5 eng_one evt5
    (by decide)).2.2.2.1 (by decide) (by decide)

/-- Registry non-emptiness expressed on the `isEmpty` test. -/
lemma not_isEmpty_eq (l : List (Stat × Bool)) :
    (!l.isEmpty) = true ↔ l ≠ [] := by
  cases l <;> simp

/-- Per-statistic precision test of `monitor_statistics` expressed as an
implication between the two booleans read from the statistic. -/
lemma stat_ok_iff (p : Stat × Bool) :
    (!(p.1.enabled && !p.1.target_precision_reached)) = true ↔
      (p.1.enabled = true → p.1.target_precision_reached = true) := by
  cases h1 : p.1.enabled <;> cases h2 : p.1.target_precision_reached <;>
    simp [h1, h2]

/-- Outcome of `monitor_statistics` on the `end_of_sim_` flag, expressed
over the registry snapshot. -/
lemma monitor_end_eq (s : Engine) :
    (monitor_statistics s).end_of_sim =
      (s.end_of_sim || (!s.mon_stats.isEmpty &&
        s.mon_stats.all
          (fun p => !(p.1.enabled && !p.1.target_precision_reached)))) := by
  unfold monitor_statistics
  by_cases h : s.mon_stats.isEmpty = true
  · rw [if_pos h, h, Bool.not_true, Bool.false_and, Bool.or_false]
  · have h2 : s.mon_stats.isEmpty = false := by
      cases hb : s.mon_stats.isEmpty
      · rfl
      · exact absurd hb h
    rw [if_neg h, h2, Bool.not_false, Bool.true_and]
    dsimp only
    cases hall : s.mon_stats.all
        (fun p => !(p.1.enabled && !p.1.target_precision_reached))
    · rw [if_neg (fun hc => Bool.false_ne_true hc), Bool.or_false]
    · rw [if_pos rfl, Bool.or_true]

/-- Outcome of `monitor_statistics` on the statistics registry: the latch
update applied pointwise. -/
lemma monitor_mon_stats_eq (s : Engine) :
    (monitor_statistics s).mon_stats = s.mon_stats.map (fun p =>
      if !p.2 && p.1.steady_state_entered then
        ({ p.1 with steady_state_enter_time := s.sim_time }, true)
      else p) := by
  cases hms : s.mon_stats with
  | nil => simp [monitor_statistics, hms]
  | cons p ps => simp [monitor_statistics, hms]

/-- C7 (amended): `monitor_statistics` raises `end_of_sim_` exactly when
it was already raised or the registry is non-empty and no registered
statistic is both enabled and short of its target precision (on an empty
registry the call is a no-op); and pointwise it latches exactly the
statistics whose latch is down and whose steady state has been entered,
recording the clock as their steady-state enter time, leaving all other
entries unchanged. -/
theorem c7_monitor (s : Engine) :
    ((monitor_statistics s).end_of_sim = true ↔
      (s.end_of_sim = true ∨ (s.mon_stats ≠ [] ∧
        ∀ p ∈ s.mon_stats, p.1.enabled = true →
          p.1.target_precision_reached = true)))
    ∧ List.Forall₂ (fun p q =>
        (p.2 = false ∧ p.1.steady_state_entered = true →
          q = ({ p.1 with steady_state_enter_time := s.sim_time }, true))
        ∧ (¬(p.2 = false ∧ p.1.steady_state_entered = true) → q = p))
        s.mon_stats (monitor_statistics s).mon_stats := by
  constructor
  · rw [monitor_end_eq, Bool.or_eq_true, Bool.and_eq_true, List.all_eq_true]
    constructor
    · rintro (h | ⟨h1, h2⟩)
      · exact Or.inl h
      · exact Or.inr ⟨(not_isEmpty_eq _).1 h1,
          fun p hp => (stat_ok_iff p).1 (h2 p hp)⟩
    · rintro (h | ⟨h1, h2⟩)
      · exact Or.inl h
      · exact Or.inr ⟨(not_isEmpty_eq _).2 h1,
          fun p hp => (stat_ok_iff p).2 (h2 p hp)⟩
  · rw [monitor_mon_stats_eq, List.forall₂_map_right_iff, List.forall₂_same]
    intro p hp
    constructor
    · rintro ⟨h1, h2⟩
      simp [h1, h2]
    · intro hc
      have hcond : (!p.2 && p.1.steady_state_entered) = false := by
        cases hb : p.2 <;> cases hs : p.1.steady_state_entered <;>
          first
            | rfl
            | exact absurd ⟨hb, hs⟩ hc
      simp [hcond]

/-- C7 counterexample: on an empty registry with `end_of_sim_` down,
`monitor_statistics` returns without raising `end_of_sim_`, even though
no registered statistic is both enabled and short of its target
precision; the claimed "exactly when" fails for the empty registry. -/
theorem c7_cex :
    ¬ (((monitor_statistics eng_run).end_of_sim = true) ↔
       (∀ p ∈ eng_run.mon_stats,
          ¬(p.1.enabled = true ∧ p.1.target_precision_reached = false))) := by
  decide

/-- C9: when the registry is non-empty and every registered statistic is
disabled, `monitor_statistics` raises `end_of_sim_` even though no
enabled statistic has reached its target precision. -/
theorem c9_all_disabled (s : Engine) (h1 : s.mon_stats ≠ [])
    (h2 : ∀ p ∈ s.mon_stats, p.1.enabled = false) :
    (monitor_statistics s).end_of_sim = true := by
  rw [monitor_end_eq]
  have hall : s.mon_stats.all
      (fun p => !(p.1.enabled && !p.1.target_precision_reached)) = true := by
    rw [List.all_eq_true]
    intro p hp
    rw [h2 p hp]
    rfl
  have hne : s.mon_stats.isEmpty = false := by
    cases hms : s.mon_stats with
    | nil => exact absurd hms h1
    | cons p ps => rfl
  rw [hall, hne]
  simp

/-- C9 witness: the statement instantiated on a registry holding exactly
one disabled statistic. -/
theorem c9_witness :
    eng_stat1.mon_stats ≠ []
    ∧ (∀ p ∈ eng_stat1.mon_stats, p.1.enabled = false)
    ∧ (monitor_statistics eng_stat1).end_of_sim = true :=
  ⟨by decide, by decide, c9_all_disabled eng_stat1 (by decide) (by decide)⟩

/-- Reflexively smaller FEL keys have no larger fire time. -/
lemma fire_time_le_of_keyLe {a b : Event} (h : keyLe a b) :
    a.fire_time ≤ b.fire_time := by
  rcases h with h | ⟨h, _⟩
  · exact le_of_lt h
  · exact le_of_eq h

/-- Transport of the engine invariant along equal FEL and clock. -/
lemma enginv_congr {s2 s : Engine} (hl : s2.evt_list = s.evt_list)
    (ht : s2.sim_time = s.sim_time) (h : EngInv s) : EngInv s2 := by
  unfold EngInv at h
  exact ⟨hl ▸ h.1, by rw [hl, ht]; exact h.2⟩

/-- Fire time of the event built by `schedule_event` never lies before the
clock. -/
lemma sched_evt_fire_ge (src : Nat) (t : Rat) (s : Engine) :
    s.sim_time ≤ (sched_evt src t s).fire_time := by
  unfold sched_evt
  dsimp only
  by_cases hlt : t < s.sim_time
  · rw [if_pos hlt]
  · rw [if_neg hlt]
    exact le_of_not_lt hlt

/-- `schedule_event` preserves the run invariant and the clock. -/
lemma schedule_event_inv (en : Bool) (src : Nat) (t : Rat) (s : Engine)
    (h : EngInv s) :
    EngInv (schedule_event en src t s).2
    ∧ (schedule_event en src t s).2.sim_time = s.sim_time := by
  cases en
  · exact ⟨h, rfl⟩
  · refine ⟨⟨?_, ?_⟩, rfl⟩
    · show List.Pairwise keyLe (felInsert (sched_evt src t s) s.evt_list)
      exact pairwise_felInsert _ _ h.1
    · show ∀ e ∈ felInsert (sched_evt src t s) s.evt_list,
        s.sim_time ≤ e.fire_time
      intro e he
      rcases (mem_felInsert e _ _).1 he with rfl | he2
      · exact sched_evt_fire_ge src t s
      · exact h.2 e he2

/-- The reschedule-and-push tail preserves the run invariant and the clock
whenever the new fire time does not lie before the clock. -/
lemma resched_core_inv (essEq : Rat → Rat → Bool) (i : Nat) (t : Rat)
    (evt : Event) (s : Engine) (ht : s.sim_time ≤ t) (h : EngInv s) :
    EngInv (resched_core essEq i t evt s)
    ∧ (resched_core essEq i t evt s).sim_time = s.sim_time := by
  unfold resched_core
  by_cases hc : essEq t evt.fire_time = true
  · rw [if_pos hc]
    exact ⟨h, rfl⟩
  · rw [if_neg hc]
    refine ⟨⟨?_, ?_⟩, rfl⟩
    · exact pairwise_felInsert _ _ (pairwise_felErase i h.1)
    · intro e he
      rcases (mem_felInsert e _ _).1 he with rfl | he2
      · exact ht
      · exact h.2 e (mem_of_mem_felErase he2)

/-- `reschedule_event` preserves the run invariant and the clock. -/
lemma reschedule_event_inv (essEq : Rat → Rat → Bool) (en : Bool) (i : Nat)
    (t : Rat) (s : Engine) (h : EngInv s) :
    EngInv (reschedule_event essEq en i t s)
    ∧ (reschedule_event essEq en i t s).sim_time = s.sim_time := by
  cases en
  · exact ⟨h, rfl⟩
  · cases hf : s.evt_list.find? (fun e => e.id == i) with
    | none =>
      have hs : reschedule_event essEq true i t s = s := by
        unfold reschedule_event
        rw [hf]
        rfl
      rw [hs]
      exact ⟨h, rfl⟩
    | some evt =>
      have hs : reschedule_event essEq true i t s =
          (if t < s.sim_time then
             (if s.sim_time < evt.fire_time then
                resched_core essEq i s.sim_time evt s
              else s)
           else resched_core essEq i t evt s) := by
        unfold reschedule_event
        rw [hf]
        rfl
      rw [hs]
      by_cases h1 : t < s.sim_time
      · rw [if_pos h1]
        by_cases h2 : s.sim_time < evt.fire_time
        · rw [if_pos h2]
          exact resched_core_inv essEq i s.sim_time evt s (le_refl _) h
        · rw [if_neg h2]
          exact ⟨h, rfl⟩
      · rw [if_neg h1]
        exact resched_core_inv essEq i t evt s (le_of_not_lt h1) h

/-- `fire_next_event` preserves the run invariant and never moves the
clock backwards. -/
lemma fire_next_event_inv (env : Env) (s : Engine) (h : EngInv s) :
    EngInv (fire_next_event env s)
    ∧ s.sim_time ≤ (fire_next_event env s).sim_time := by
  obtain ⟨hpw0, hfut0⟩ := h
  unfold fire_next_event
  cases hl : s.evt_list with
  | nil => exact ⟨⟨hpw0, hfut0⟩, le_refl _⟩
  | cons e rest =>
    rw [hl] at hpw0 hfut0
    dsimp only
    by_cases he : (!(env.enabled_of e.src_id)) = true
    · rw [if_pos he]
      refine ⟨⟨?_, ?_⟩, le_refl _⟩
      · exact (List.pairwise_cons.1 hpw0).2
      · intro x hx
        exact hfut0 x (List.mem_cons_of_mem e hx)
    · rw [if_neg he]
      refine ⟨⟨?_, ?_⟩, ?_⟩
      · exact (List.pairwise_cons.1 hpw0).2
      · intro x hx
        exact fire_time_le_of_keyLe ((List.pairwise_cons.1 hpw0).1 x hx)
      · exact hfut0 e (List.mem_cons_self e rest)

/-- `monitor_statistics` touches neither the FEL nor the clock. -/
lemma monitor_fields (s : Engine) :
    (monitor_statistics s).evt_list = s.evt_list
    ∧ (monitor_statistics s).sim_time = s.sim_time := by
  unfold monitor_statistics
  by_cases h : s.mon_stats.isEmpty = true
  · rw [if_pos h]
    exact ⟨rfl, rfl⟩
  · rw [if_neg h]
    exact ⟨rfl, rfl⟩

/-- `advance` preserves the run invariant and never moves the clock
backwards. -/
lemma advance_inv (env : Env) (s : Engine) (h : EngInv s) :
    EngInv (advance env s) ∧ s.sim_time ≤ (advance env s).sim_time := by
  unfold advance
  by_cases hc : (!s.end_of_sim && !s.evt_list.isEmpty) = true
  · rw [if_pos hc]
    obtain ⟨h1, h2⟩ := fire_next_event_inv env s h
    obtain ⟨hl, ht⟩ := monitor_fields (fire_next_event env s)
    exact ⟨enginv_congr hl ht h1, le_trans h2 (le_of_eq ht.symm)⟩
  · rw [if_neg hc]
    exact ⟨h, le_refl _⟩

/-- `stop_at_time` preserves the run invariant and the clock. -/
lemma stop_at_time_inv (en : Bool) (t : Rat) (s : Engine) (h : EngInv s) :
    EngInv (stop_at_time en t s)
    ∧ (stop_at_time en t s).sim_time = s.sim_time := by
  unfold stop_at_time
  by_cases hc : t < s.sim_time
  · rw [if_pos hc]
    exact ⟨h, rfl⟩
  · rw [if_neg hc]
    exact schedule_event_inv en eosId t s h

/-- Every public engine operation preserves the run invariant and never
moves the clock backwards. -/
lemma step_op_inv (op : EngineOp) (s : Engine) (h : EngInv s) :
    EngInv (step_op op s) ∧ s.sim_time ≤ (step_op op s).sim_time := by
  cases op with
  | schedule en src t =>
    obtain ⟨h1, h2⟩ := schedule_event_inv en src t s h
    exact ⟨h1, le_of_eq h2.symm⟩
  | resched eq en i t =>
    obtain ⟨h1, h2⟩ := reschedule_event_inv eq en i t s h
    exact ⟨h1, le_of_eq h2.symm⟩
  | adv env => exact advance_inv env s h
  | fire_next env => exact fire_next_event_inv env s h
  | stop_at en t =>
    obtain ⟨h1, h2⟩ := stop_at_time_inv en t s h
    exact ⟨h1, le_of_eq h2.symm⟩

/-- Under the run invariant the FEL head never fires before the clock. -/
lemma pop_ok_of_inv {s : Engine} (h : EngInv s) : pop_ok s = true := by
  unfold pop_ok
  cases hl : s.evt_list with
  | nil => rfl
  | cons e rest =>
    exact decide_eq_true (h.2 e (hl.symm ▸ List.mem_cons_self e rest))

/-- C2: along every sequence of public engine operations started in a
state satisfying the run invariant (FEL sorted by priority, no queued
event firing before the clock), `simulated_time()` is monotonically
nondecreasing, the invariant is preserved, and every event popped by
`fire_next_event` — directly or through `advance` — has `fire_time` at
least the clock at the moment it is popped. -/
theorem c2_sim_time_monotone (ops : List EngineOp) (s : Engine)
    (h : EngInv s) :
    s.sim_time ≤ (run_ops ops s).sim_time
    ∧ EngInv (run_ops ops s)
    ∧ ops_pops_ok ops s = true := by
  induction ops generalizing s with
  | nil => exact ⟨le_refl _, h, rfl⟩
  | cons op ops ih =>
    obtain ⟨h1, h2⟩ := step_op_inv op s h
    obtain ⟨ih1, ih2, ih3⟩ := ih (step_op op s) h1
    refine ⟨le_trans h2 ih1, ih2, ?_⟩
    cases op with
    | schedule en src t =>
      show (true && ops_pops_ok ops (step_op (EngineOp.schedule en src t) s))
        = true
      rw [Bool.true_and]
      exact ih3
    | resched eq en i t =>
      show (true && ops_pops_ok ops (step_op (EngineOp.resched eq en i t) s))
        = true
      rw [Bool.true_and]
      exact ih3
    | adv env =>
      show ((if s.end_of_sim then true else pop_ok s)
        && ops_pops_ok ops (step_op (EngineOp.adv env) s)) = true
      by_cases he : s.end_of_sim = true
      · rw [if_pos he, Bool.true_and]
        exact ih3
      · rw [if_neg he, pop_ok_of_inv h, Bool.true_and]
        exact ih3
    | fire_next env =>
      show (pop_ok s && ops_pops_ok ops (step_op (EngineOp.fire_next env) s))
        = true
      rw [pop_ok_of_inv h, Bool.true_and]
      exact ih3
    | stop_at en t =>
      show (true && ops_pops_ok ops (step_op (EngineOp.stop_at en t) s))
        = true
      rw [Bool.true_and]
      exact ih3

/-- C2 witness: the statement instantiated on a fresh in-run state and a
concrete sequence scheduling, firing, advancing and stopping. -/
theorem c2_witness :
    EngInv eng_run
    ∧ (eng_run.sim_time ≤ (run_ops ops_w eng_run).sim_time
       ∧ EngInv (run_ops ops_w eng_run)
       ∧ ops_pops_ok ops_w eng_run = true) :=
  ⟨by decide, c2_sim_time_monotone ops_w eng_run (by decide)⟩

/-- C8: scheduling two events with the same requested time from enabled
sources gives them the same (possibly clamped) fire time and strictly
increasing sequence numbers assigned at push time, the second lands
strictly after the first in the future-event list (priority order
`fire_time` ascending then sequence number ascending), and
`fire_next_event` always consumes the head of the list, so among
same-time events the earlier-pushed one fires first. -/
theorem c8_fifo_tie_break (s : Engine) (srcA srcB : Nat) (t : Rat) :
    (sched_evt srcA t s).fire_time =
      (sched_evt srcB t (schedule_event true srcA t s).2).fire_time
    ∧ (sched_evt srcA t s).seq <
        (sched_evt srcB t (schedule_event true srcA t s).2).seq
    ∧ (∃ l1 l2 l3,
        (schedule_event true srcB t
            (schedule_event true srcA t s).2).2.evt_list =
          l1 ++ (sched_evt srcA t s) ::
            (l2 ++ (sched_evt srcB t (schedule_event true srcA t s).2) :: l3))
    ∧ (∀ env s2, (fire_next_event env s2).evt_list = s2.evt_list.tail) := by
  refine ⟨rfl, Nat.lt_succ_self _, ?_, ?_⟩
  · have hkey : keyLtb (sched_evt srcA t s)
        (sched_evt srcB t (schedule_event true srcA t s).2) = true := by
      rw [keyLtb_iff]
      exact Or.inr ⟨rfl, Nat.lt_succ_self _⟩
    exact felInsert_pair_split _ _ hkey s.evt_list
  · intro env s2
    unfold fire_next_event
    cases hl : s2.evt_list with
    | nil =>
      show s2.evt_list = List.tail []
      exact hl
    | cons e rest =>
      dsimp only
      by_cases he : (!(env.enabled_of e.src_id)) = true
      · rw [if_pos he]
        rfl
      · rw [if_neg he]
        rfl
